import Mathlib

set_option maxRecDepth 8000

/-!
# GumballSound firmware: shallow embedding and verification

This file embeds the ATtiny13a firmware `src/firmware/GumballSound.c` in Lean 4
and settles a list of behavioural claims about it.

Modelling conventions:
* AVR machine integers become `Nat` with explicit reductions: `unsigned long`
  is 32 bits (`% ulongMod`), `uint8_t` is 8 bits (`% 256`), and `int` is a
  signed 16-bit type (maximum `intMax = 32767`).
* Hardware side effects (writes of waveform samples to the PWM compare
  register `OCR0A`, calls of the busy-wait delay, LED toggles on `PORTB`) are
  recorded as events in a trace list.  The `Ev.emit` event additionally
  records the current value of the waveform index `gumIndex` (a ghost field:
  the hardware write itself only carries the sample byte) so that claims
  about the index can be stated over traces.  The `Ev.toggleBlue` event
  records the value the variable `pitchIndex` holds at the moment the toggle
  executes (source line 256), so that the relative order of the toggle and
  the index advancement is visible in the trace.
* Loops that can fail to make progress are modelled with `Option`/`Except`:
  `none`/`.error` means the C execution does not reach a defined result
  (non-termination of the delay loop, out-of-bounds table read, division by
  zero, or signed-integer overflow of the 16-bit loop counter, all of which
  are undefined or divergent behaviour on the target).
-/

/-! ## The constant tables (source lines 101-145) -/

/-- `gumballWavTabSize` from the source: length of the waveform table. -/
def gumballWavTabSize : ℕ := 92

/-- The 92-entry waveform table `gumballWavTab[]`, byte values. -/
def gumballWavTab : List ℕ := [
  0x8a, 0xb1, 0x55, 0x4d, 0xb2, 0x90, 0x43, 0x8f, 0xb7, 0x4f, 0x54, 0xbd,
  0x8c, 0x35, 0x98, 0xb8, 0x3a, 0x70, 0xcb, 0x4c, 0x51, 0xd7, 0x5d, 0x47,
  0xd2, 0x69, 0x3a, 0xde, 0x54, 0x4c, 0xe4, 0x30, 0x7b, 0xcf, 0x0f, 0xc5,
  0x82, 0x2e, 0xf3, 0x13, 0xb2, 0x91, 0x2c, 0xf5, 0x01, 0xe0, 0x45, 0x83,
  0xa8, 0x2e, 0xe9, 0x05, 0xf6, 0x13, 0xd3, 0x47, 0x96, 0x80, 0x61, 0xac,
  0x3e, 0xc9, 0x26, 0xdc, 0x1d, 0xdc, 0x27, 0xc6, 0x43, 0xa8, 0x60, 0x89,
  0x83, 0x65, 0xac, 0x40, 0xc6, 0x30, 0xc2, 0x45, 0xa0, 0x74, 0x6e, 0xa5,
  0x46, 0xba, 0x4b, 0x94, 0x89, 0x56, 0xb7, 0x59]

/-- The pitch table `pitchTab[]`: pairs `(gumballPitch, pitchDuration)`,
terminated by the sentinel `(0, 0)`. -/
def pitchTab : List (ℕ × ℕ) := [
  (100,  280), (150,  250), (180,  300), ( 90,  800), (120,  500),
  (200,   50), (120,  280), ( 95,  282), ( 90,  285), (180,  350),
  (150,  380), (120,  280), ( 95,  410), ( 90,  285), ( 70,  500),
  (200,   50), ( 70,  180), ( 65, 1000), ( 70,  150), ( 80,  180),
  ( 90,  285), ( 80,  270), ( 12,   50), ( 50, 2000), (200,  500),
  ( 80,  500), (100,  500), (255,  800), (100,  100), ( 96,  100),
  ( 92,  100), ( 88,  200), ( 84,  250), ( 80,  300), ( 77,  350),
  ( 74,  400), ( 71,  200), ( 68,  200), ( 65,  200), ( 62,  200),
  ( 59,  190), ( 56,  180), ( 53,  170), ( 53,  160), ( 50,  150),
  ( 48,  140), ( 46,  130), ( 44,  120), ( 42,  110), ( 40,  100),
  ( 38,  100), ( 36,  100), ( 34,  100), ( 32,  100), ( 30,  100),
  ( 28,  100), ( 26,  100), ( 24,  100), ( 22,   90), ( 20,   70),
  ( 18,   60), ( 16,   50), ( 14,   40), ( 10,  100), ( 16,   50),
  ( 20,   70), ( 36,  100), ( 50,  150), ( 62,  200), ( 71,  200),
  ( 80,  150), ( 92,  130),
  (  0,    0)]

/-! ## Constants (source lines 154-156) and machine-width moduli -/

/-- `TENTH_MS` from the source. -/
def TENTH_MS : ℕ := 112

/-- `SAMP` from the source. -/
def SAMP : ℕ := 10

/-- `ONE_SEC` from the source. -/
def ONE_SEC : ℕ := 10000

/-- Modulus of the 32-bit `unsigned long int` type on AVR: `2 ^ 32`. -/
def ulongMod : ℕ := 4294967296

/-- Largest value of the signed 16-bit `int` type on AVR. -/
def intMax : ℕ := 32767

/-! ## `delaySomeTime` (source lines 157-165)

```
void delaySomeTime(unsigned long int units, unsigned long int delayCount) {
  unsigned long int timer;
  while (units != 0) {
    for (timer=0; timer <= delayCount; timer++) {PINB |= B8(00100000);};
    units--;
  }
}
```

The observable work is the number of executions of the inner-loop body (one
`PINB` write per tick).  The inner `for` loop checks `timer = 0, 1, 2, ...`
(wrapping modulo `2^32`) against `timer <= delayCount`: when
`delayCount + 1 < 2^32` it exits after exactly `delayCount + 1` body
executions, at `timer = delayCount + 1`; when `delayCount = 2^32 - 1` the
condition holds for every 32-bit `timer` value and the loop never exits,
which we model as `none`. -/

/-- Ticks performed by one execution of the inner `for` loop of
`delaySomeTime`; `none` if the loop never terminates. -/
def innerDelayTicks (delayCount : ℕ) : Option ℕ :=
  if delayCount + 1 < ulongMod then some (delayCount + 1) else none

/-- The outer `while (units != 0)` loop of `delaySomeTime`: `units`
repetitions of a body that performs `ticksPerUnit` ticks. -/
def delayOuter (ticksPerUnit : ℕ) : ℕ → ℕ
  | 0 => 0
  | u + 1 => ticksPerUnit + delayOuter ticksPerUnit u

/-- Total number of inner-loop ticks performed by
`delaySomeTime(units, delayCount)`; `none` if the call never terminates.
Arguments are reduced modulo `2^32` as `unsigned long` values. -/
def delaySomeTime (units delayCount : ℕ) : Option ℕ :=
  if units % ulongMod = 0 then some 0
  else (innerDelayTicks (delayCount % ulongMod)).map
    (fun t => delayOuter t (units % ulongMod))

/-! ## `blink_LEDs` (source lines 175-182)

```
void blink_LEDs(unsigned long int duration, unsigned long int onTime, unsigned long int offTime) {
  for (int i=0; i<(duration/(onTime+offTime)); i++) {
    PORTB |= B8(00001110);
    delaySomeTime(onTime, TENTH_MS);
    PORTB &= B8(11110001);
    delaySomeTime(offTime, TENTH_MS);
  }
}
```

The loop counter `i` is a signed 16-bit `int` on AVR.  The loop bound
`duration/(onTime+offTime)` is an `unsigned long` (division by zero is
undefined behaviour when `onTime+offTime` wraps to 0).  While `0 ≤ i ≤ 32767`
the promotion of `i` to `unsigned long` in the comparison is the identity; if
the bound exceeds `32767` then `i++` overflows the signed 16-bit counter
after the 32768-th period, which is undefined behaviour.  The fuel parameter
of `blinkGo` is `intMax + 1 = 32768`, exactly the number of loop-body
executions after which the increment of `i` overflows; exhausting it models
that overflow. -/

/-- Observable actions of `blink_LEDs`: the two `PORTB` writes and the two
delay calls (each delay call records its `units` argument; its `delayCount`
argument is always `TENTH_MS`). -/
inductive BlinkEv where
  | ledsOn : BlinkEv
  | ledsOff : BlinkEv
  | delayFor (units : ℕ) : BlinkEv
  deriving DecidableEq

/-- Failure modes of `blink_LEDs`: division by zero in the loop bound, or
signed overflow of the 16-bit loop counter. -/
inductive BlinkFault where
  | divByZero : BlinkFault
  | intOverflow : BlinkFault
  deriving DecidableEq

/-- One on-then-off period of the `blink_LEDs` loop body. -/
def blinkPeriod (onTime offTime : ℕ) : List BlinkEv :=
  [BlinkEv.ledsOn, BlinkEv.delayFor onTime, BlinkEv.ledsOff, BlinkEv.delayFor offTime]

/-- The `for` loop of `blink_LEDs`: counter `i` runs from `i` while `i < q`;
`fuel` bounds the remaining headroom of the 16-bit counter (see above). -/
def blinkGo (onTime offTime q : ℕ) : ℕ → ℕ → Option (List BlinkEv)
  | 0, _ => none
  | fuel + 1, i =>
    if i < q then
      (blinkGo onTime offTime q fuel (i + 1)).map
        (fun rest => blinkPeriod onTime offTime ++ rest)
    else some []

/-- Trace of `blink_LEDs(duration, onTime, offTime)`, or the fault that makes
the call undefined.  Arguments are reduced modulo `2^32` as `unsigned long`
values; the quotient is computed once since the loop bound is constant. -/
def blink_LEDs (duration onTime offTime : ℕ) : Except BlinkFault (List BlinkEv) :=
  if (onTime + offTime) % ulongMod = 0 then Except.error BlinkFault.divByZero
  else
    match blinkGo onTime offTime
        ((duration % ulongMod) / ((onTime + offTime) % ulongMod)) (intMax + 1) 0 with
    | some evs => Except.ok evs
    | none => Except.error BlinkFault.intOverflow

/-! ## The playback sequencer (source lines 212-259) -/

/-- Observable actions of the sequencer.
* `emit i v`: the write `OCR0A = gumWavDat` (source line 232); `v` is the
  byte written, `i` is the value of `gumIndex` it was read from (ghost).
* `delayCall rate`: the call `delaySomeTime(pitchRate, SAMP)` (line 234).
* `toggleRed` / `toggleGreen`: the `PORTB` toggles on waveform wraparound
  (lines 243 and 246).
* `toggleBlue p`: the `PORTB` toggle at line 256; `p` records the value the
  variable `pitchIndex` holds when the toggle executes. -/
inductive Ev where
  | emit (idx val : ℕ) : Ev
  | delayCall (rate : ℕ) : Ev
  | toggleRed : Ev
  | toggleGreen : Ev
  | toggleBlue (pitchIndex : ℕ) : Ev
  deriving DecidableEq

/-- The LED toggles performed on a waveform wraparound (source lines
242-247): red if `pitchRate % 50 == 0 || pitchRate % 20 == 0`, green if
`pitchRate % 40 == 0 || pitchRate % 10 == 0`, in that order. -/
def wrapPattern (rate : ℕ) : List Ev :=
  (if rate % 50 = 0 ∨ rate % 20 = 0 then [Ev.toggleRed] else []) ++
  (if rate % 40 = 0 ∨ rate % 10 = 0 then [Ev.toggleGreen] else [])

/-- One step of the `gumIndex` update (source lines 236-248): `gumIndex++`
as a `uint8_t`, then reset to 0 with the wraparound LED toggles if the
incremented index reaches `gumballWavTabSize`.  Returns the new index and
the toggle events. -/
def stepGum (rate g : ℕ) : ℕ × List Ev :=
  if (g + 1) % 256 ≥ gumballWavTabSize then (0, wrapPattern rate)
  else ((g + 1) % 256, [])

/-- The inner `for` loop (source lines 229-249): `d` iterations, each
emitting the sample at the current `gumIndex`, calling the delay, and
stepping the index.  Returns the final `gumIndex` and the event trace.
(The loop counter `j` is a `uint32_t` and `pitchLen` a `uint16_t`, so the
counter never overflows; the sample read `gumballWavTab[gumIndex]` is
in bounds whenever `gumIndex < 92`, which the sequencer maintains.) -/
def innerLoop (rate : ℕ) : ℕ → ℕ → ℕ × List Ev
  | g, 0 => (g, [])
  | g, d + 1 =>
    ((innerLoop rate (stepGum rate g).1 d).1,
      Ev.emit g (gumballWavTab.getD g 0) :: Ev.delayCall rate ::
        ((stepGum rate g).2 ++ (innerLoop rate (stepGum rate g).1 d).2))

/-- The middle `while (pitchRate != 0)` loop (source lines 225-257), acting
on the suffix of the pitch table starting at the current `pitchIndex` value
`p` (so the head of the suffix is the entry `pitchTab[p]` whose fields are
currently in `pitchRate`/`pitchLen`).  `g` is the current `gumIndex`.
Per iteration: run the inner loop, advance `pitchIndex` to `p + 1`, read
`pitchTab[p+1]` (reading past the end of the table is undefined behaviour,
modelled as `none`), then toggle the blue LED (line 256, recording the
already-advanced index `p + 1`), and re-test the loop condition.
Returns the final `gumIndex` and the trace of one pass.
(The model is faithful for tables of at most 256 entries, since `pitchIndex`
is a `uint8_t`; the firmware's table has 73.) -/
def middle : ℕ → ℕ → List (ℕ × ℕ) → Option (ℕ × List Ev)
  | _, _, [] => none
  | g, p, (rate, len) :: rest =>
    if rate = 0 then some (g, [])
    else
      match middle (innerLoop rate g len).1 (p + 1) rest with
      | none => none
      | some (gf, tail) =>
        some (gf, (innerLoop rate g len).2 ++ Ev.toggleBlue (p + 1) :: tail)

/-- `n` iterations of the outer `while (1)` loop (source lines 212-259).
Each pass resets `gumIndex` and `pitchIndex` to 0 (lines 213-214) — the
final waveform index of the previous pass is discarded — and replays the
table from the start. -/
def runPasses (tab : List (ℕ × ℕ)) : ℕ → Option (List Ev)
  | 0 => some []
  | n + 1 =>
    match middle 0 0 tab, runPasses tab n with
    | some (_, evs), some rest => some (evs ++ rest)
    | _, _ => none

/-! ## Trace observers -/

/-- The waveform index recorded by an `emit` event, if any. -/
def emitIdx : Ev → Option ℕ
  | Ev.emit i _ => some i
  | _ => none

/-- The waveform indices of the sample emissions of a trace, in order. -/
def emitIdxs (evs : List Ev) : List ℕ := evs.filterMap emitIdx

/-- Number of sample emissions (PWM compare-register writes) in a trace. -/
def countEmits (evs : List Ev) : ℕ := (emitIdxs evs).length

/-- The `pitchIndex` value recorded by a blue-LED toggle, if any. -/
def blueIdx : Ev → Option ℕ
  | Ev.toggleBlue p => some p
  | _ => none

/-- The recorded `pitchIndex` values of the blue-LED toggles of a trace. -/
def blueIdxs (evs : List Ev) : List ℕ := evs.filterMap blueIdx

/-- Whether an event is a red or green LED toggle. -/
def isRG : Ev → Bool
  | Ev.toggleRed => true
  | Ev.toggleGreen => true
  | _ => false

/-- The red/green LED toggles of a trace, in order. -/
def rgEvs (evs : List Ev) : List Ev := evs.filter isRG

/-- The entries of a pitch table before the first sentinel (first entry with
pitch field 0): exactly the entries the middle loop plays. -/
def playedEntries : List (ℕ × ℕ) → List (ℕ × ℕ)
  | [] => []
  | (rate, len) :: rest =>
    if rate = 0 then [] else (rate, len) :: playedEntries rest

/-- Index of the first sentinel entry of a pitch table. -/
def sentinelIdx (tab : List (ℕ × ℕ)) : ℕ := (playedEntries tab).length

/-- Sum of the durations of the played entries of a pitch table. -/
def totalDur (tab : List (ℕ × ℕ)) : ℕ :=
  ((playedEntries tab).map (fun e => e.2)).sum

deriving instance DecidableEq for Except

/-- The three-entry demonstration table of the specification scenario. -/
def demoTab : List (ℕ × ℕ) := [(100, 5), (50, 3), (0, 0)]

/-- The trace of one pass of the sequencer over `demoTab`: five emissions
(waveform bytes 0x8a, 0xb1, 0x55, 0x4d, 0xb2 at indices 0-4, each followed
by a delay call with the entry's pitch 100), the blue toggle for the first
entry, three emissions (bytes 0x90, 0x43, 0x8f at indices 5-7, pitch 50),
and the blue toggle for the second entry. -/
def demoTrace : List Ev := [
  Ev.emit 0 138, Ev.delayCall 100, Ev.emit 1 177, Ev.delayCall 100,
  Ev.emit 2 85, Ev.delayCall 100, Ev.emit 3 77, Ev.delayCall 100,
  Ev.emit 4 178, Ev.delayCall 100, Ev.toggleBlue 1,
  Ev.emit 5 144, Ev.delayCall 50, Ev.emit 6 67, Ev.delayCall 50,
  Ev.emit 7 143, Ev.delayCall 50, Ev.toggleBlue 2]

/-! ## Basic facts about the trace observers -/

@[simp] theorem emitIdxs_nil : emitIdxs [] = [] := rfl

@[simp] theorem emitIdxs_cons_emit (i v : ℕ) (evs : List Ev) :
    emitIdxs (Ev.emit i v :: evs) = i :: emitIdxs evs := rfl

@[simp] theorem emitIdxs_cons_delay (r : ℕ) (evs : List Ev) :
    emitIdxs (Ev.delayCall r :: evs) = emitIdxs evs := rfl

@[simp] theorem emitIdxs_cons_red (evs : List Ev) :
    emitIdxs (Ev.toggleRed :: evs) = emitIdxs evs := rfl

@[simp] theorem emitIdxs_cons_green (evs : List Ev) :
    emitIdxs (Ev.toggleGreen :: evs) = emitIdxs evs := rfl

@[simp] theorem emitIdxs_cons_blue (p : ℕ) (evs : List Ev) :
    emitIdxs (Ev.toggleBlue p :: evs) = emitIdxs evs := rfl

@[simp] theorem emitIdxs_append (l1 l2 : List Ev) :
    emitIdxs (l1 ++ l2) = emitIdxs l1 ++ emitIdxs l2 :=
  List.filterMap_append l1 l2 emitIdx

@[simp] theorem blueIdxs_nil : blueIdxs [] = [] := rfl

@[simp] theorem blueIdxs_cons_emit (i v : ℕ) (evs : List Ev) :
    blueIdxs (Ev.emit i v :: evs) = blueIdxs evs := rfl

@[simp] theorem blueIdxs_cons_delay (r : ℕ) (evs : List Ev) :
    blueIdxs (Ev.delayCall r :: evs) = blueIdxs evs := rfl

@[simp] theorem blueIdxs_cons_red (evs : List Ev) :
    blueIdxs (Ev.toggleRed :: evs) = blueIdxs evs := rfl

@[simp] theorem blueIdxs_cons_green (evs : List Ev) :
    blueIdxs (Ev.toggleGreen :: evs) = blueIdxs evs := rfl

@[simp] theorem blueIdxs_cons_blue (p : ℕ) (evs : List Ev) :
    blueIdxs (Ev.toggleBlue p :: evs) = p :: blueIdxs evs := rfl

@[simp] theorem blueIdxs_append (l1 l2 : List Ev) :
    blueIdxs (l1 ++ l2) = blueIdxs l1 ++ blueIdxs l2 :=
  List.filterMap_append l1 l2 blueIdx

@[simp] theorem rgEvs_nil : rgEvs [] = [] := rfl

@[simp] theorem rgEvs_cons_emit (i v : ℕ) (evs : List Ev) :
    rgEvs (Ev.emit i v :: evs) = rgEvs evs := rfl

@[simp] theorem rgEvs_cons_delay (r : ℕ) (evs : List Ev) :
    rgEvs (Ev.delayCall r :: evs) = rgEvs evs := rfl

@[simp] theorem rgEvs_cons_red (evs : List Ev) :
    rgEvs (Ev.toggleRed :: evs) = Ev.toggleRed :: rgEvs evs := rfl

@[simp] theorem rgEvs_cons_green (evs : List Ev) :
    rgEvs (Ev.toggleGreen :: evs) = Ev.toggleGreen :: rgEvs evs := rfl

@[simp] theorem rgEvs_cons_blue (p : ℕ) (evs : List Ev) :
    rgEvs (Ev.toggleBlue p :: evs) = rgEvs evs := rfl

@[simp] theorem rgEvs_append (l1 l2 : List Ev) :
    rgEvs (l1 ++ l2) = rgEvs l1 ++ rgEvs l2 :=
  List.filter_append l1 l2

@[simp] theorem countEmits_nil : countEmits [] = 0 := rfl

theorem countEmits_append (l1 l2 : List Ev) :
    countEmits (l1 ++ l2) = countEmits l1 + countEmits l2 := by
  simp [countEmits]

/-! ## Facts about `wrapPattern` and `stepGum` -/

theorem emitIdxs_wrapPattern (rate : ℕ) : emitIdxs (wrapPattern rate) = [] := by
  unfold wrapPattern; split_ifs <;> rfl

theorem blueIdxs_wrapPattern (rate : ℕ) : blueIdxs (wrapPattern rate) = [] := by
  unfold wrapPattern; split_ifs <;> rfl

theorem rgEvs_wrapPattern (rate : ℕ) : rgEvs (wrapPattern rate) = wrapPattern rate := by
  unfold wrapPattern; split_ifs <;> rfl

theorem emitIdxs_stepGum (rate g : ℕ) : emitIdxs (stepGum rate g).2 = [] := by
  unfold stepGum; split_ifs <;> simp [emitIdxs_wrapPattern]

theorem blueIdxs_stepGum (rate g : ℕ) : blueIdxs (stepGum rate g).2 = [] := by
  unfold stepGum; split_ifs <;> simp [blueIdxs_wrapPattern]

theorem stepGum_eq_small (rate g : ℕ) (h : g + 1 < 92) :
    stepGum rate g = (g + 1, []) := by
  unfold stepGum gumballWavTabSize
  rw [Nat.mod_eq_of_lt (by omega)]
  rw [if_neg (by omega)]

theorem stepGum_eq_wrap (rate : ℕ) : stepGum rate 91 = (0, wrapPattern rate) := rfl

theorem stepGum_fst (rate g : ℕ) (h : g < 92) :
    (stepGum rate g).1 = (g + 1) % 92 := by
  by_cases hc : g + 1 < 92
  · rw [stepGum_eq_small rate g hc]; omega
  · have hg : g = 91 := by omega
    subst hg; rw [stepGum_eq_wrap]

/-! ## The inner loop: emission count, index cycling, wrap toggles -/

theorem innerLoop_countEmits (rate d g : ℕ) :
    countEmits (innerLoop rate g d).2 = d := by
  induction d generalizing g with
  | zero => simp [innerLoop]
  | succ n ih =>
    simp [innerLoop, countEmits] at *
    simp [emitIdxs_stepGum, ih]

theorem innerLoop_blueIdxs (rate d g : ℕ) :
    blueIdxs (innerLoop rate g d).2 = [] := by
  induction d generalizing g with
  | zero => simp [innerLoop]
  | succ n ih => simp [innerLoop, blueIdxs_stepGum, ih]

theorem innerLoop_spec (rate d : ℕ) : ∀ g, g < 92 →
    emitIdxs (innerLoop rate g d).2 = (List.range d).map (fun k => (g + k) % 92) ∧
    (innerLoop rate g d).1 = (g + d) % 92 := by
  induction d with
  | zero =>
    intro g hg
    refine ⟨by simp [innerLoop], ?_⟩
    simp [innerLoop]; omega
  | succ n ih =>
    intro g hg
    by_cases hc : g + 1 < 92
    · have hs := stepGum_eq_small rate g hc
      obtain ⟨ih1, ih2⟩ := ih (g + 1) hc
      constructor
      · simp [innerLoop, hs, ih1, List.range_succ_eq_map, List.map_map]
        constructor
        · omega
        · intro a _; omega
      · simp [innerLoop, hs, ih2]; omega
    · have hg91 : g = 91 := by omega
      subst hg91
      obtain ⟨ih1, ih2⟩ := ih 0 (by omega)
      constructor
      · simp [innerLoop, stepGum_eq_wrap, emitIdxs_wrapPattern, ih1,
          List.range_succ_eq_map, List.map_map]
        intro a _; omega
      · simp [innerLoop, stepGum_eq_wrap, ih2]; omega

theorem innerLoop_rgEvs (rate d : ℕ) : ∀ g, g < 92 →
    rgEvs (innerLoop rate g d).2 =
      (List.replicate ((g + d) / 92) (wrapPattern rate)).flatten := by
  induction d with
  | zero =>
    intro g hg
    have h0 : g / 92 = 0 := Nat.div_eq_of_lt hg
    simp [innerLoop, h0]
  | succ n ih =>
    intro g hg
    by_cases hc : g + 1 < 92
    · have hs := stepGum_eq_small rate g hc
      have hq : (g + (n + 1)) / 92 = (g + 1 + n) / 92 := by omega
      rw [hq]
      simp [innerLoop, hs, ih (g + 1) hc]
    · have hg91 : g = 91 := by omega
      subst hg91
      have hq : (91 + (n + 1)) / 92 = n / 92 + 1 := by omega
      rw [hq]
      simp [innerLoop, stepGum_eq_wrap, rgEvs_wrapPattern, ih 0 (by omega),
        List.replicate_succ]

/-! ## Facts about the played prefix of a pitch table -/

theorem playedEntries_cons_ne (rate len : ℕ) (rest : List (ℕ × ℕ)) (h : rate ≠ 0) :
    playedEntries ((rate, len) :: rest) = (rate, len) :: playedEntries rest := by
  simp [playedEntries, h]

theorem playedEntries_cons_zero (len : ℕ) (rest : List (ℕ × ℕ)) :
    playedEntries ((0, len) :: rest) = [] := by
  simp [playedEntries]

theorem totalDur_cons_ne (rate len : ℕ) (rest : List (ℕ × ℕ)) (h : rate ≠ 0) :
    totalDur ((rate, len) :: rest) = len + totalDur rest := by
  simp [totalDur, playedEntries_cons_ne rate len rest h]

theorem sentinelIdx_cons_ne (rate len : ℕ) (rest : List (ℕ × ℕ)) (h : rate ≠ 0) :
    sentinelIdx ((rate, len) :: rest) = sentinelIdx rest + 1 := by
  simp [sentinelIdx, playedEntries_cons_ne rate len rest h]

/-! ## The middle loop: per-pass trace structure -/

theorem middle_countEmits (tab : List (ℕ × ℕ)) : ∀ g p gf : ℕ, ∀ evs : List Ev,
    middle g p tab = some (gf, evs) → countEmits evs = totalDur tab := by
  induction tab with
  | nil => intro g p gf evs h; simp [middle] at h
  | cons e rest ih =>
    intro g p gf evs h
    obtain ⟨rate, len⟩ := e
    by_cases hr : rate = 0
    · subst hr
      rw [middle, if_pos rfl] at h
      simp at h
      obtain ⟨h1, h2⟩ := h
      subst h2
      simp [countEmits, totalDur, playedEntries]
    · rw [middle, if_neg hr] at h
      cases hm : middle (innerLoop rate g len).1 (p + 1) rest with
      | none => rw [hm] at h; exact absurd h (by simp)
      | some pr =>
        obtain ⟨gf2, tail⟩ := pr
        rw [hm] at h
        simp at h
        obtain ⟨h1, h2⟩ := h
        subst h2
        rw [countEmits_append, innerLoop_countEmits, totalDur_cons_ne rate len rest hr]
        have htail : countEmits (Ev.toggleBlue (p + 1) :: tail) = countEmits tail := by
          simp [countEmits]
        rw [htail, ih (innerLoop rate g len).1 (p + 1) gf2 tail hm]

theorem middle_emitIdxs (tab : List (ℕ × ℕ)) : ∀ g p gf : ℕ, ∀ evs : List Ev,
    g < 92 → middle g p tab = some (gf, evs) →
    emitIdxs evs = (List.range (totalDur tab)).map (fun k => (g + k) % 92) ∧
    gf = (g + totalDur tab) % 92 := by
  induction tab with
  | nil => intro g p gf evs _ h; simp [middle] at h
  | cons e rest ih =>
    intro g p gf evs hg h
    obtain ⟨rate, len⟩ := e
    by_cases hr : rate = 0
    · subst hr
      rw [middle, if_pos rfl] at h
      simp at h
      obtain ⟨h1, h2⟩ := h
      subst h1; subst h2
      simp [totalDur, playedEntries]
      omega
    · rw [middle, if_neg hr] at h
      cases hm : middle (innerLoop rate g len).1 (p + 1) rest with
      | none => rw [hm] at h; exact absurd h (by simp)
      | some pr =>
        obtain ⟨gf2, tail⟩ := pr
        rw [hm] at h
        simp at h
        obtain ⟨h1, h2⟩ := h
        subst h1; subst h2
        have hfst : (innerLoop rate g len).1 = (g + len) % 92 :=
          (innerLoop_spec rate len g hg).2
        have hlt : (innerLoop rate g len).1 < 92 := by
          rw [hfst]; exact Nat.mod_lt _ (by omega)
        obtain ⟨ih1, ih2⟩ := ih (innerLoop rate g len).1 (p + 1) gf2 tail hlt hm
        rw [hfst] at ih1 ih2
        constructor
        · simp only [emitIdxs_append, emitIdxs_cons_blue]
          rw [(innerLoop_spec rate len g hg).1, ih1,
            totalDur_cons_ne rate len rest hr, List.range_add,
            List.map_append, List.map_map]
          congr 1
          apply List.map_congr_left
          intro a _
          simp [Function.comp]
          omega
        · rw [ih2, totalDur_cons_ne rate len rest hr]
          omega

theorem middle_blueIdxs (tab : List (ℕ × ℕ)) : ∀ g p gf : ℕ, ∀ evs : List Ev,
    middle g p tab = some (gf, evs) →
    blueIdxs evs = List.range' (p + 1) (sentinelIdx tab) := by
  induction tab with
  | nil => intro g p gf evs h; simp [middle] at h
  | cons e rest ih =>
    intro g p gf evs h
    obtain ⟨rate, len⟩ := e
    by_cases hr : rate = 0
    · subst hr
      rw [middle, if_pos rfl] at h
      simp at h
      obtain ⟨h1, h2⟩ := h
      subst h2
      simp [sentinelIdx, playedEntries]
    · rw [middle, if_neg hr] at h
      cases hm : middle (innerLoop rate g len).1 (p + 1) rest with
      | none => rw [hm] at h; exact absurd h (by simp)
      | some pr =>
        obtain ⟨gf2, tail⟩ := pr
        rw [hm] at h
        simp at h
        obtain ⟨h1, h2⟩ := h
        subst h2
        rw [sentinelIdx_cons_ne rate len rest hr, List.range'_succ]
        simp only [blueIdxs_append, blueIdxs_cons_blue, innerLoop_blueIdxs,
          List.nil_append]
        rw [ih (innerLoop rate g len).1 (p + 1) gf2 tail hm]

theorem middle_sentinel_lt (tab : List (ℕ × ℕ)) : ∀ g p gf : ℕ, ∀ evs : List Ev,
    middle g p tab = some (gf, evs) → sentinelIdx tab < tab.length := by
  induction tab with
  | nil => intro g p gf evs h; simp [middle] at h
  | cons e rest ih =>
    intro g p gf evs h
    obtain ⟨rate, len⟩ := e
    by_cases hr : rate = 0
    · subst hr
      simp [sentinelIdx, playedEntries]
    · rw [middle, if_neg hr] at h
      cases hm : middle (innerLoop rate g len).1 (p + 1) rest with
      | none => rw [hm] at h; exact absurd h (by simp)
      | some pr =>
        obtain ⟨gf2, tail⟩ := pr
        have := ih (innerLoop rate g len).1 (p + 1) gf2 tail hm
        rw [sentinelIdx_cons_ne rate len rest hr]
        simp only [List.length_cons]
        omega

theorem middle_truncate (pre : List (ℕ × ℕ)) : ∀ g p d : ℕ, ∀ post : List (ℕ × ℕ),
    (∀ e ∈ pre, e.1 ≠ 0) →
    middle g p (pre ++ (0, d) :: post) = middle g p (pre ++ [(0, d)]) := by
  induction pre with
  | nil => intro g p d post _; simp [middle]
  | cons e pre2 ih =>
    intro g p d post h
    obtain ⟨rate, len⟩ := e
    have hr : rate ≠ 0 := h (rate, len) (List.mem_cons_self _ _)
    simp only [List.cons_append]
    rw [middle, middle, if_neg hr, if_neg hr,
      ih (innerLoop rate g len).1 (p + 1) d post
        (fun e he => h e (List.mem_cons_of_mem _ he))]

/-! ## Facts about `delaySomeTime` -/

theorem delayOuter_eq (t u : ℕ) : delayOuter t u = u * t := by
  induction u with
  | zero => simp [delayOuter]
  | succ n ih => rw [delayOuter, ih]; ring

/-- Closed form of the delay's tick count on the terminating domain. -/
theorem delaySomeTime_ticks (units delayCount : ℕ)
    (h : delayCount % ulongMod ≠ ulongMod - 1) :
    delaySomeTime units delayCount =
      some ((units % ulongMod) * (delayCount % ulongMod + 1)) := by
  unfold delaySomeTime
  by_cases hu : units % ulongMod = 0
  · rw [if_pos hu, hu]
    simp
  · rw [if_neg hu]
    unfold innerDelayTicks
    have hd : delayCount % ulongMod < ulongMod := by
      apply Nat.mod_lt
      unfold ulongMod
      omega
    rw [if_pos (by unfold ulongMod at *; omega)]
    simp [delayOuter_eq]

theorem delaySomeTime_zero_units (delayCount : ℕ) :
    delaySomeTime 0 delayCount = some 0 := by
  unfold delaySomeTime
  rw [if_pos (by unfold ulongMod; omega)]

theorem delaySomeTime_diverges (units : ℕ) (h : units % ulongMod ≠ 0) :
    delaySomeTime units (ulongMod - 1) = none := by
  unfold delaySomeTime
  rw [if_neg h]
  unfold innerDelayTicks
  have hm : (ulongMod - 1) % ulongMod = ulongMod - 1 := by
    apply Nat.mod_eq_of_lt
    unfold ulongMod
    omega
  rw [hm, if_neg (by unfold ulongMod; omega)]
  rfl

/-! ## Facts about `blink_LEDs` -/

theorem blinkGo_some (onTime offTime q : ℕ) : ∀ fuel i : ℕ, i ≤ q → q ≤ intMax →
    intMax + 1 ≤ i + fuel →
    blinkGo onTime offTime q fuel i =
      some ((List.replicate (q - i) (blinkPeriod onTime offTime)).flatten) := by
  intro fuel
  induction fuel with
  | zero =>
    intro i hiq hq hfuel
    unfold intMax at *
    omega
  | succ n ih =>
    intro i hiq hq hfuel
    by_cases hc : i < q
    · rw [blinkGo, if_pos hc, ih (i + 1) (by omega) hq (by omega)]
      have hrep : q - i = (q - (i + 1)) + 1 := by omega
      rw [hrep, List.replicate_succ, List.flatten_cons]
      rfl
    · have hiq2 : i = q := by omega
      rw [blinkGo, if_neg hc, hiq2, Nat.sub_self]
      rfl

theorem blinkGo_none (onTime offTime q : ℕ) : ∀ fuel i : ℕ, intMax < q →
    i + fuel ≤ intMax + 1 →
    blinkGo onTime offTime q fuel i = none := by
  intro fuel
  induction fuel with
  | zero => intro i _ _; rfl
  | succ n ih =>
    intro i hq hfuel
    have hc : i < q := by unfold intMax at *; omega
    rw [blinkGo, if_pos hc, ih (i + 1) hq (by omega)]
    rfl

/-! ## A sanity anchor for the firmware's own table -/

theorem pitchTab_wellFormed : sentinelIdx pitchTab = 72 ∧ pitchTab.length = 73 := by
  decide

/-! ## The claims -/

/-- C1: for every pitch-table entry whose pitch field is nonzero, the
sequencer's inner loop emits exactly `duration` samples (one write of the
current waveform value to the PWM compare register per iteration) before
advancing to the next entry: the inner loop for an entry of duration `d`
performs exactly `d` emissions regardless of the starting waveform index,
and consequently a whole pass emits exactly the sum of the durations of the
entries before the sentinel, each entry contributing exactly its own
duration before the sequencer moves on. -/
theorem claim_C1_inner_emits :
    (∀ rate g d : ℕ, rate ≠ 0 → countEmits (innerLoop rate g d).2 = d) ∧
    (∀ tab : List (ℕ × ℕ), ∀ g p gf : ℕ, ∀ evs : List Ev,
      middle g p tab = some (gf, evs) → countEmits evs = totalDur tab) := by
  constructor
  · intro rate g d _
    exact innerLoop_countEmits rate d g
  · intro tab g p gf evs h
    exact middle_countEmits tab g p gf evs h

/-- C1 witness: the inner loop of the first demo entry (pitch 100,
duration 5) emits exactly 5 samples, and the demo pass emits exactly the
sum of the played durations. -/
theorem claim_C1_witness :
    countEmits (innerLoop 100 0 5).2 = 5 ∧
    countEmits demoTrace = totalDur demoTab :=
  ⟨claim_C1_inner_emits.1 100 0 5 (by decide),
   claim_C1_inner_emits.2 demoTab 0 0 8 demoTrace (by decide)⟩

/-- C2: in every pass (waveform index and pitch index starting at 0) the
emitted waveform indices are `0, 1, 2, ... mod 92` — so the index is always
in `[0, 92)` and wraps to 0 exactly every 92 emissions — the final waveform
index is below 92, the recorded pitch-index values of the blue toggles are
exactly `1, ..., sentinelIdx` in order (the pitch index stays in
`[0, table length]` and reaches the sentinel index only at the last step of
the pass), and the sentinel index is inside the table.  The reference
waveform table has length 92 = `gumballWavTabSize`. -/
theorem claim_C2_invariants :
    gumballWavTab.length = gumballWavTabSize ∧ gumballWavTabSize = 92 ∧
    (∀ tab : List (ℕ × ℕ), ∀ gf : ℕ, ∀ evs : List Ev,
      middle 0 0 tab = some (gf, evs) →
      emitIdxs evs = (List.range (totalDur tab)).map (fun k => k % 92) ∧
      (∀ i ∈ emitIdxs evs, i < 92) ∧
      gf < 92 ∧
      blueIdxs evs = List.range' 1 (sentinelIdx tab) ∧
      (∀ i : ℕ, Ev.toggleBlue i ∈ evs → 1 ≤ i ∧ i ≤ sentinelIdx tab) ∧
      sentinelIdx tab < tab.length) := by
  refine ⟨by decide, rfl, ?_⟩
  intro tab gf evs h
  obtain ⟨h1, h2⟩ := middle_emitIdxs tab 0 0 gf evs (by omega) h
  have hblue := middle_blueIdxs tab 0 0 gf evs h
  have hzero : (fun k : ℕ => (0 + k) % 92) = (fun k : ℕ => k % 92) := by
    funext k; simp
  rw [hzero] at h1
  refine ⟨h1, ?_, ?_, by simpa using hblue, ?_,
    middle_sentinel_lt tab 0 0 gf evs h⟩
  · intro i hi
    rw [h1] at hi
    simp [List.mem_map] at hi
    obtain ⟨k, _, hk⟩ := hi
    omega
  · rw [h2]; exact Nat.mod_lt _ (by omega)
  · intro i hi
    have hmem : i ∈ blueIdxs evs :=
      List.mem_filterMap.mpr ⟨Ev.toggleBlue i, hi, rfl⟩
    rw [hblue, List.mem_range'] at hmem
    obtain ⟨j, hj, hij⟩ := hmem
    omega

/-- C2 witness: on the demo pass, the emitted indices are `0..7 mod 92` and
the blue toggles record pitch indices `1, 2`. -/
theorem claim_C2_witness :
    emitIdxs demoTrace = (List.range (totalDur demoTab)).map (fun k => k % 92) ∧
    blueIdxs demoTrace = List.range' 1 (sentinelIdx demoTab) := by
  obtain ⟨-, -, h3⟩ := claim_C2_invariants
  obtain ⟨h1, -, -, h4, -, -⟩ := h3 demoTab 8 demoTrace (by decide)
  exact ⟨h1, h4⟩

/-- C3: on every waveform wraparound (and only then) the sequencer appends
one copy of `wrapPattern rate`: starting at index `g < 92`, an inner loop of
`d` iterations produces exactly `(g + d) / 92` wraparounds, and its
red/green toggle subtrace is exactly that many copies of the pattern, so
each wraparound toggles red exactly once iff `rate % 50 = 0 ∨ rate % 20 = 0`
and green exactly once iff `rate % 40 = 0 ∨ rate % 10 = 0`, the two
conditions being evaluated independently. -/
theorem claim_C3_wrap_leds :
    (∀ rate g d : ℕ, g < 92 →
      rgEvs (innerLoop rate g d).2 =
        (List.replicate ((g + d) / 92) (wrapPattern rate)).flatten) ∧
    (∀ rate : ℕ,
      Ev.toggleRed ∈ wrapPattern rate ↔ (rate % 50 = 0 ∨ rate % 20 = 0)) ∧
    (∀ rate : ℕ,
      Ev.toggleGreen ∈ wrapPattern rate ↔ (rate % 40 = 0 ∨ rate % 10 = 0)) := by
  refine ⟨fun rate g d hg => innerLoop_rgEvs rate d g hg, ?_, ?_⟩
  · intro rate
    by_cases hA : rate % 50 = 0 ∨ rate % 20 = 0 <;>
      by_cases hB : rate % 40 = 0 ∨ rate % 10 = 0 <;>
      simp [wrapPattern, hA, hB]
  · intro rate
    by_cases hA : rate % 50 = 0 ∨ rate % 20 = 0 <;>
      by_cases hB : rate % 40 = 0 ∨ rate % 10 = 0 <;>
      simp [wrapPattern, hA, hB]

/-- C3 witness: a 92-iteration inner loop from index 0 wraps exactly once;
with pitch 20 the wrap toggles both red and green, with pitch 7 neither. -/
theorem claim_C3_witness :
    rgEvs (innerLoop 20 0 92).2 =
      (List.replicate ((0 + 92) / 92) (wrapPattern 20)).flatten ∧
    wrapPattern 20 = [Ev.toggleRed, Ev.toggleGreen] ∧
    rgEvs (innerLoop 7 0 92).2 =
      (List.replicate ((0 + 92) / 92) (wrapPattern 7)).flatten ∧
    wrapPattern 7 = [] :=
  ⟨claim_C3_wrap_leds.1 20 0 92 (by decide), by decide,
   claim_C3_wrap_leds.1 7 0 92 (by decide), by decide⟩

/-- C4 counterexample: the claim (following the spec) says the blue toggle
happens before the pitch index is advanced and the next entry is read, i.e.
the toggle would record the entry's own index (0 for the first entry).  In
the pass over `[(5, 1), (0, 0)]` the only blue toggle records pitch index 1
— the code advances `pitchIndex` and reads the next entry first (source
lines 251-256) — and no toggle recording index 0 occurs. -/
theorem claim_C4_counterexample :
    middle 0 0 [(5, 1), (0, 0)] =
      some (1, [Ev.emit 0 138, Ev.delayCall 5, Ev.toggleBlue 1]) ∧
    Ev.toggleBlue 0 ∉ [Ev.emit 0 138, Ev.delayCall 5, Ev.toggleBlue 1] := by
  decide

/-- C4 (amended): for every non-sentinel pitch-table entry the blue LED is
toggled exactly once, after all of that entry's samples have been emitted
and after the pitch index is advanced and the next entry is read (the
toggle records the already-advanced index `p + 1`): the entry's trace
segment is its inner-loop events followed by that single blue toggle, and
no other blue toggle of the pass records `p + 1`. -/
theorem claim_C4_blue_per_entry :
    ∀ (g p rate d : ℕ) (rest : List (ℕ × ℕ)) (gf : ℕ) (evs : List Ev),
      rate ≠ 0 → middle g p ((rate, d) :: rest) = some (gf, evs) →
      ∃ tail : List Ev,
        evs = (innerLoop rate g d).2 ++ Ev.toggleBlue (p + 1) :: tail ∧
        Ev.toggleBlue (p + 1) ∉ (innerLoop rate g d).2 ∧
        Ev.toggleBlue (p + 1) ∉ tail := by
  intro g p rate d rest gf evs hr h
  rw [middle, if_neg hr] at h
  cases hm : middle (innerLoop rate g d).1 (p + 1) rest with
  | none => rw [hm] at h; exact absurd h (by simp)
  | some pr =>
    obtain ⟨gf2, tail⟩ := pr
    rw [hm] at h
    simp at h
    obtain ⟨h1, h2⟩ := h
    refine ⟨tail, h2.symm, ?_, ?_⟩
    · intro hmem
      have hb : (p + 1) ∈ blueIdxs (innerLoop rate g d).2 :=
        List.mem_filterMap.mpr ⟨Ev.toggleBlue (p + 1), hmem, rfl⟩
      rw [innerLoop_blueIdxs] at hb
      simp at hb
    · intro hmem
      have hb : (p + 1) ∈ blueIdxs tail :=
        List.mem_filterMap.mpr ⟨Ev.toggleBlue (p + 1), hmem, rfl⟩
      rw [middle_blueIdxs rest (innerLoop rate g d).1 (p + 1) gf2 tail hm,
        List.mem_range'] at hb
      obtain ⟨j, hj, hij⟩ := hb
      omega

/-- C4 witness: on the table `[(5, 1), (0, 0)]` the first entry's segment
is its single emission and delay followed by the blue toggle recording
index 1, which does not occur inside the inner-loop events. -/
theorem claim_C4_witness :
    [Ev.emit 0 138, Ev.delayCall 5, Ev.toggleBlue 1] =
      (innerLoop 5 0 1).2 ++ Ev.toggleBlue 1 :: ([] : List Ev) ∧
    Ev.toggleBlue 1 ∉ (innerLoop 5 0 1).2 := by
  obtain ⟨tail, h1, h2, h3⟩ :=
    claim_C4_blue_per_entry 0 0 5 1 [(0, 0)] 1
      [Ev.emit 0 138, Ev.delayCall 5, Ev.toggleBlue 1] (by decide) (by decide)
  exact ⟨by decide, h2⟩

/-- C5: a pass terminates exactly at the first entry whose pitch field is 0
(entries after the first sentinel are never looked at), and the next pass
restarts from waveform index 0 and pitch index 0; on the demo table
`[(100, 5), (50, 3), (0, 0)]` one pass emits exactly 8 samples (5 for the
first entry, then 3), with one blue toggle after each of the two played
entries, and two passes replay the identical trace twice. -/
theorem claim_C5_pass_structure :
    (∀ g p d : ℕ, ∀ pre post : List (ℕ × ℕ),
      (∀ e ∈ pre, e.1 ≠ 0) →
      middle g p (pre ++ (0, d) :: post) = middle g p (pre ++ [(0, d)])) ∧
    middle 0 0 demoTab = some (8, demoTrace) ∧
    countEmits demoTrace = 8 ∧
    blueIdxs demoTrace = [1, 2] ∧
    runPasses demoTab 2 = some (demoTrace ++ demoTrace) := by
  refine ⟨?_, by decide, by decide, by decide, by decide⟩
  intro g p d pre post h
  exact middle_truncate pre g p d post h

/-- C5 witness: the truncation law at a concrete table — the entries after
the first sentinel do not affect the pass. -/
theorem claim_C5_witness :
    middle 0 0 [(100, 5), (0, 9), (7, 7)] = middle 0 0 [(100, 5), (0, 9)] :=
  claim_C5_pass_structure.1 0 0 9 [(100, 5)] [(7, 7)] (by decide)

/-- Inversion: any terminating `delaySomeTime` call performed exactly
`(units mod 2^32) * (delayCount mod 2^32 + 1)` ticks. -/
theorem delaySomeTime_some_inv (units delayCount t : ℕ)
    (h : delaySomeTime units delayCount = some t) :
    t = (units % ulongMod) * (delayCount % ulongMod + 1) := by
  unfold delaySomeTime at h
  by_cases hu : units % ulongMod = 0
  · rw [if_pos hu] at h
    simp at h
    rw [hu, ← h]
    ring
  · rw [if_neg hu] at h
    unfold innerDelayTicks at h
    by_cases hd : delayCount % ulongMod + 1 < ulongMod
    · rw [if_pos hd] at h
      simp [delayOuter_eq] at h
      omega
    · rw [if_neg hd] at h
      simp at h

/-- C6 counterexample: the total busy-wait work is not `c * units *
delayCount` for any fixed constant `c` of proportionality: with `units = 1`
and `delayCount = 0` the call performs 1 inner-loop tick while the product
`units * delayCount` is 0. -/
theorem claim_C6_counterexample :
    ¬ ∃ c : ℕ, ∀ units delayCount : ℕ,
        delayCount % ulongMod ≠ ulongMod - 1 →
        delaySomeTime units delayCount = some (c * (units * delayCount)) := by
  intro hex
  obtain ⟨c, hc⟩ := hex
  have h1 := hc 1 0 (by decide)
  have h2 : delaySomeTime 1 0 = some 1 := by decide
  rw [h2] at h1
  simp at h1

/-- C6 (amended): the total observable work of `delaySomeTime` is
proportional to `units` times `(delayCount + 1)` — exactly
`units * (delayCount + 1)` inner-loop ticks (values taken modulo `2^32`) —
whenever the inner loop terminates. -/
theorem claim_C6_delay_work :
    ∀ units delayCount : ℕ, delayCount % ulongMod ≠ ulongMod - 1 →
      delaySomeTime units delayCount =
        some ((units % ulongMod) * (delayCount % ulongMod + 1)) :=
  fun u d h => delaySomeTime_ticks u d h

/-- C6 witness: the sequencer's per-sample delay call `delaySomeTime(3, SAMP)`
performs `3 * (SAMP + 1)` ticks. -/
theorem claim_C6_witness :
    delaySomeTime 3 SAMP = some ((3 % ulongMod) * (SAMP % ulongMod + 1)) :=
  claim_C6_delay_work 3 SAMP (by decide)

/-- C7 counterexample: the total busy-wait work is not strictly increasing
in `delayCount` with `units` held fixed: at `units = 0` the work is 0 for
every `delayCount` (here `delayCount` 0 vs 1). -/
theorem claim_C7_counterexample :
    ¬ ∀ units d1 d2 t1 t2 : ℕ,
        delaySomeTime units d1 = some t1 → delaySomeTime units d2 = some t2 →
        d1 < d2 → t1 < t2 := by
  intro h
  have := h 0 0 1 0 0 (by decide) (by decide) (by decide)
  exact absurd this (by decide)

/-- C7 (amended): on the terminating domain the total busy-wait work is
strictly increasing in `units` (the other argument fixed), strictly
increasing in `delayCount` provided `units` is nonzero (with `units = 0` it
is constantly zero, so only monotone), monotone in both arguments, and zero
when the unit count is zero. -/
theorem claim_C7_delay_monotone :
    (∀ u1 u2 d t1 t2 : ℕ, u1 < u2 → u2 < ulongMod →
      delaySomeTime u1 d = some t1 → delaySomeTime u2 d = some t2 → t1 < t2) ∧
    (∀ u d1 d2 t1 t2 : ℕ, u % ulongMod ≠ 0 → d1 < d2 → d2 < ulongMod - 1 →
      delaySomeTime u d1 = some t1 → delaySomeTime u d2 = some t2 → t1 < t2) ∧
    (∀ u d1 d2 t1 t2 : ℕ, d1 ≤ d2 → d2 < ulongMod - 1 →
      delaySomeTime u d1 = some t1 → delaySomeTime u d2 = some t2 → t1 ≤ t2) ∧
    (∀ u1 u2 d t1 t2 : ℕ, u1 ≤ u2 → u2 < ulongMod →
      delaySomeTime u1 d = some t1 → delaySomeTime u2 d = some t2 → t1 ≤ t2) ∧
    (∀ d : ℕ, delaySomeTime 0 d = some 0) := by
  refine ⟨?_, ?_, ?_, ?_, delaySomeTime_zero_units⟩
  · intro u1 u2 d t1 t2 hlt hu2 h1 h2
    rw [delaySomeTime_some_inv u1 d t1 h1, delaySomeTime_some_inv u2 d t2 h2,
      Nat.mod_eq_of_lt (show u1 < ulongMod by omega), Nat.mod_eq_of_lt hu2]
    exact Nat.mul_lt_mul_of_lt_of_le hlt (le_refl _) (by omega)
  · intro u d1 d2 t1 t2 hu hlt hd2 h1 h2
    rw [delaySomeTime_some_inv u d1 t1 h1, delaySomeTime_some_inv u d2 t2 h2,
      Nat.mod_eq_of_lt (show d1 < ulongMod by omega),
      Nat.mod_eq_of_lt (show d2 < ulongMod by omega)]
    exact Nat.mul_lt_mul_of_le_of_lt (le_refl _) (by omega) (by omega)
  · intro u d1 d2 t1 t2 hle hd2 h1 h2
    rw [delaySomeTime_some_inv u d1 t1 h1, delaySomeTime_some_inv u d2 t2 h2,
      Nat.mod_eq_of_lt (show d1 < ulongMod by omega),
      Nat.mod_eq_of_lt (show d2 < ulongMod by omega)]
    exact Nat.mul_le_mul (le_refl _) (by omega)
  · intro u1 u2 d t1 t2 hle hu2 h1 h2
    rw [delaySomeTime_some_inv u1 d t1 h1, delaySomeTime_some_inv u2 d t2 h2,
      Nat.mod_eq_of_lt (show u1 < ulongMod by omega), Nat.mod_eq_of_lt hu2]
    exact Nat.mul_le_mul hle (le_refl _)

/-- C7 witness: with `delayCount = 3` fixed, raising `units` from 2 to 5
strictly increases the work (8 < 20 ticks); with `units = 0` the work is 0. -/
theorem claim_C7_witness :
    delaySomeTime 2 3 = some 8 ∧ delaySomeTime 5 3 = some 20 ∧ (8 : ℕ) < 20 ∧
    delaySomeTime 0 7 = some 0 :=
  ⟨by decide, by decide,
   claim_C7_delay_monotone.1 2 5 3 8 20 (by decide) (by decide)
     (by decide) (by decide),
   claim_C7_delay_monotone.2.2.2.2 7⟩

/-- C8 counterexample: `blink_LEDs` does not perform
`floor(duration / (onTime + offTime))` periods for every argument triple:
at `duration = 2^31`, `onTime = 1`, `offTime = 0` the loop bound `2^31`
exceeds the 16-bit `int` loop counter, the counter increment overflows
(undefined behaviour, modelled as `.error .intOverflow`), and the claimed
`ok`-result with `2^31` whole periods is not produced. -/
theorem claim_C8_counterexample :
    blink_LEDs 2147483648 1 0 = Except.error BlinkFault.intOverflow ∧
    (Except.error BlinkFault.intOverflow : Except BlinkFault (List BlinkEv)) ≠
      Except.ok ((List.replicate (2147483648 / (1 + 0)) (blinkPeriod 1 0)).flatten) := by
  constructor
  · unfold blink_LEDs
    rw [if_neg (by decide)]
    have hq : (2147483648 % ulongMod) / ((1 + 0) % ulongMod) = 2147483648 := by
      decide
    rw [hq, blinkGo_none 1 0 2147483648 (intMax + 1) 0 (by decide) (by omega)]
  · intro hcontra
    exact Except.noConfusion hcontra

/-- C8 (amended): whenever `onTime + offTime` is nonzero modulo `2^32` and
the whole-period count `floor(duration / (onTime + offTime))` fits the
16-bit `int` loop counter (is at most 32767), `blink_LEDs` performs exactly
that many whole on-then-off periods — asserting the three LED outputs, then
delaying for `onTime`, clearing them, then delaying for `offTime` — and any
remainder shorter than one full period is not played. -/
theorem claim_C8_blink_whole_periods :
    ∀ duration onTime offTime : ℕ,
      (onTime + offTime) % ulongMod ≠ 0 →
      (duration % ulongMod) / ((onTime + offTime) % ulongMod) ≤ intMax →
      blink_LEDs duration onTime offTime =
        Except.ok ((List.replicate
          ((duration % ulongMod) / ((onTime + offTime) % ulongMod))
          (blinkPeriod onTime offTime)).flatten) := by
  intro duration onTime offTime hsum hq
  unfold blink_LEDs
  rw [if_neg hsum,
    blinkGo_some onTime offTime _ (intMax + 1) 0 (Nat.zero_le _) hq (by omega)]
  simp

/-- C8 witness: `blink_LEDs(25, 7, 3)` plays exactly 2 whole periods (the
remaining 5 time units, shorter than one 10-unit period, are not played). -/
theorem claim_C8_witness :
    blink_LEDs 25 7 3 =
      Except.ok ((List.replicate ((25 % ulongMod) / ((7 + 3) % ulongMod))
        (blinkPeriod 7 3)).flatten) :=
  claim_C8_blink_whole_periods 25 7 3 (by decide) (by decide)

/-- C9: `delaySomeTime` terminates with exactly
`units * (delayCount + 1)` inner-loop ticks for every `delayCount` other
than the maximum `unsigned long` value `2^32 - 1` (arguments modulo
`2^32`); at `delayCount = 2^32 - 1` with nonzero `units` the call never
terminates, because the loop condition `timer <= delayCount` holds for
every 32-bit `timer` value. -/
theorem claim_C9_delay_termination :
    (∀ units delayCount : ℕ, delayCount % ulongMod ≠ ulongMod - 1 →
      delaySomeTime units delayCount =
        some ((units % ulongMod) * (delayCount % ulongMod + 1))) ∧
    (∀ units : ℕ, units % ulongMod ≠ 0 →
      delaySomeTime units (ulongMod - 1) = none) ∧
    (∀ timer : ℕ, timer < ulongMod → timer ≤ ulongMod - 1) := by
  refine ⟨fun u d h => delaySomeTime_ticks u d h,
    fun u h => delaySomeTime_diverges u h, ?_⟩
  intro t ht
  unfold ulongMod at ht ⊢
  omega

/-- C9 witness: the one-second calibration call performs
`ONE_SEC * (TENTH_MS + 1)` ticks; at the maximal `delayCount` the call with
one unit diverges. -/
theorem claim_C9_witness :
    delaySomeTime ONE_SEC TENTH_MS =
      some ((ONE_SEC % ulongMod) * (TENTH_MS % ulongMod + 1)) ∧
    delaySomeTime 1 (ulongMod - 1) = none ∧
    (5 : ℕ) ≤ ulongMod - 1 :=
  ⟨claim_C9_delay_termination.1 ONE_SEC TENTH_MS (by decide),
   claim_C9_delay_termination.2.1 1 (by decide),
   claim_C9_delay_termination.2.2 5 (by decide)⟩

/-- C10: `blink_LEDs` divides by `onTime + offTime` with no guard; under
the precondition that this sum (as an `unsigned long`) is nonzero the
division-by-zero fault is unreachable, while the call with `onTime = 0`
and `offTime = 0` hits the division by zero. -/
theorem claim_C10_blink_guard :
    (∀ duration onTime offTime : ℕ, (onTime + offTime) % ulongMod ≠ 0 →
      blink_LEDs duration onTime offTime ≠ Except.error BlinkFault.divByZero) ∧
    (∀ duration : ℕ, blink_LEDs duration 0 0 = Except.error BlinkFault.divByZero) := by
  constructor
  · intro duration onTime offTime h
    unfold blink_LEDs
    rw [if_neg h]
    cases hm : blinkGo onTime offTime
        ((duration % ulongMod) / ((onTime + offTime) % ulongMod))
        (intMax + 1) 0 with
    | none =>
      intro hcontra
      injection hcontra with h3
      exact absurd h3 (by decide)
    | some evs =>
      intro hcontra
      exact Except.noConfusion hcontra
  · intro duration
    unfold blink_LEDs
    rw [if_pos (by decide)]

/-- C10 witness: with a nonzero on/off sum the fault is absent; with both
zero it occurs. -/
theorem claim_C10_witness :
    blink_LEDs 5 1 0 ≠ Except.error BlinkFault.divByZero ∧
    blink_LEDs 5 0 0 = Except.error BlinkFault.divByZero :=
  ⟨claim_C10_blink_guard.1 5 1 0 (by decide), claim_C10_blink_guard.2 5⟩
